import Mathlib

/-!
Verification of the email extractor in `src/email_extractor.py`.

The Python module defines a class `EE` whose interesting state is the
composed e-mail regular expression (built once in `__init__`) together
with an output format string.  We embed:

* the text preprocessing done by `extract_email` (lowercasing, newline
  handling, the `re.sub` calls),
* the regular-expression grammar built in `__init__` as an explicit
  regex AST (`RX`) together with a backtracking matcher with Python
  `re` semantics (leftmost match, leftmost alternative, greedy
  quantifiers, lookahead, fixed-width lookbehind, word boundary),
* `clean_domain`, `clean_username`, `clean`, `normalize`,
  `set_output_format` and `extract_email`.

Each `re.sub` call in `clean_domain` / `clean_username` / the
preprocessing uses a fixed concrete pattern; those substitutions are
embedded as direct scanners over `List Char` that perform exactly the
replacement the pattern performs (left-to-right scan, non-overlapping
matches, greedy runs).  None of those patterns can match the empty
string, so the Python scan-position rules for empty matches never
apply.  The scanners use a `Nat` fuel bounded below by the input
length; every step consumes at least one character, so the fuel is
never exhausted on the branch that returns the input unchanged.
-/

/-! ### Character classes (ASCII, as for Python 2 `str` patterns) -/

/-- Python regex `\s` for byte strings: space, tab, newline, carriage
return, vertical tab, form feed.  `str.strip()` strips the same set. -/
def isPySpace (c : Char) : Bool :=
  c == ' ' || c == '\t' || c == '\n' || c == '\r' || c == Char.ofNat 11 || c == Char.ofNat 12

def isAsciiUpper (c : Char) : Bool := 'A' ≤ c && c ≤ 'Z'

def isAsciiLower (c : Char) : Bool := 'a' ≤ c && c ≤ 'z'

def isAsciiDigit (c : Char) : Bool := '0' ≤ c && c ≤ '9'

def isAsciiAlnum (c : Char) : Bool := isAsciiLower c || isAsciiUpper c || isAsciiDigit c

/-- Regex `\w` for byte strings: `[a-zA-Z0-9_]`. -/
def isWordChar (c : Char) : Bool := isAsciiAlnum c || c == '_'

/-- The characters kept by `re.sub(self.non_dns_regex, "", ...)`, i.e. the
complement of `non_dns_regex = r"[^a-zA-Z0-9\-.]"` (line 77). -/
def isDnsChar (c : Char) : Bool := isAsciiAlnum c || c == '-' || c == '.'

/-! ### Small string utilities -/

/-- Python `str.strip()`: remove leading and trailing whitespace. -/
def pyStrip (l : List Char) : List Char :=
  ((l.dropWhile isPySpace).reverse.dropWhile isPySpace).reverse

def startsWithL (p l : List Char) : Bool := List.isPrefixOf p l

/-- `p` occurs as a contiguous substring of the second argument
(Python `s.find(p) >= 0`). -/
def occursSub (p : List Char) : List Char → Bool
  | [] => p.isEmpty
  | c :: cs => startsWithL p (c :: cs) || occursSub p cs

/-- Python `s.find(c) >= 0` for a single character. -/
def occursChar (c : Char) (l : List Char) : Bool := l.contains c

/-! ### The substitution scanners used by `clean_domain` (lines 146-152) -/

def gmailL : List Char := "gmail".data

def geeMailL : List Char := "gee mail".data

/-- Second alternative of `gmail_synonyms_regex`.  In the source (lines
30-34) the list is `["gee mail", "g mail" "gml"]`: the missing comma makes
Python concatenate the two literals, so the alternative is `g mailgml`. -/
def gMailGmlL : List Char := ("g mail" ++ "gml").data

/-- Scanner for `re.sub(self.gmail_synonyms_regex, "gmail", result)`,
pattern `(?:gee mail|g mailgml)` (alternatives are disjoint at any
position since they differ at their second character). -/
def gsynGo : Nat → List Char → List Char
  | 0, l => l
  | _ + 1, [] => []
  | f + 1, c :: cs =>
    if startsWithL geeMailL (c :: cs) then gmailL ++ gsynGo f ((c :: cs).drop 8)
    else if startsWithL gMailGmlL (c :: cs) then gmailL ++ gsynGo f ((c :: cs).drop 9)
    else c :: gsynGo f cs

def subGmailSyn (l : List Char) : List Char := gsynGo l.length l

/-- Scanner for `re.sub("\s+", ".", result)`: each maximal whitespace
run becomes a single dot. -/
def wsubGo : Nat → List Char → List Char
  | 0, l => l
  | _ + 1, [] => []
  | f + 1, c :: cs =>
    if isPySpace c then '.' :: wsubGo f (cs.dropWhile isPySpace) else c :: wsubGo f cs

def subWs (l : List Char) : List Char := wsubGo l.length l

def isOpenBr (c : Char) : Bool := c == '(' || c == '['

def isCloseBr (c : Char) : Bool := c == ')' || c == ']'

def dotL : List Char := "dot".data

/-- Match of `dot_regex = "[(\[]*dot[)\]]*"` (line 88) at the head of `l`:
a (possibly empty) run of `(`/`[`, then `dot`, then a greedy run of
`)`/`]`.  A shorter opening run can never be followed by `dot` (the next
character would be another bracket), so dropping the whole run is exactly
the backtracking behaviour. -/
def dotMatchAt (l : List Char) : Option (List Char) :=
  let l1 := l.dropWhile isOpenBr
  if startsWithL dotL l1 then some ((l1.drop 3).dropWhile isCloseBr) else none

/-- Scanner for `re.sub(self.dot_regex, ".", result)`. -/
def dsubGo : Nat → List Char → List Char
  | 0, l => l
  | _ + 1, [] => []
  | f + 1, c :: cs =>
    match dotMatchAt (c :: cs) with
    | some rest => '.' :: dsubGo f rest
    | none => c :: dsubGo f cs

def subDotMarks (l : List Char) : List Char := dsubGo l.length l

/-- Scanner for `re.sub("\.+", ".", result)`: collapse dot runs. -/
def csubGo : Nat → List Char → List Char
  | 0, l => l
  | _ + 1, [] => []
  | f + 1, c :: cs =>
    if c == '.' then '.' :: csubGo f (cs.dropWhile (fun x => x == '.')) else c :: csubGo f cs

def subDots (l : List Char) : List Char := csubGo l.length l

/-! ### `clean_domain` (lines 136-165) -/

def common_domains : List (List Char) :=
  ["gmail".data, "gee mail".data, "g mail".data, "gml".data, "yahoo".data, "hotmail".data]

/-- `re.match(self.common_domains_regex + "$", result)` (line 155):
anchored at the start; `$` matches at the end of the string or just
before a single trailing newline. -/
def commonAnchored (l : List Char) : Bool :=
  common_domains.any (fun d => l == d || l == d ++ ['\n'])

def comSuffixL : List Char := ".com".data

def gmailComL : List Char := "gmail.com".data

/-- Lines 146-152 of `clean_domain`: the five `re.sub` calls and the
`strip`.  `re.sub(non_dns_regex, "", ...)` deletes every character of
the negated class, i.e. keeps exactly the `isDnsChar` characters. -/
def cleanDomainMid (l : List Char) : List Char :=
  let r1 := subGmailSyn l
  let r2 := subWs r1
  let r3 := subDotMarks r2
  let r4 := r3.filter isDnsChar
  let r5 := subDots r4
  pyStrip r5

/-- Lines 146-156 of `clean_domain`: the substitutions followed by the
"append `.com` to a bare known provider" step. -/
def cleanDomainPre (l : List Char) : List Char :=
  let r6 := cleanDomainMid l
  if commonAnchored r6 then r6 ++ comSuffixL else r6

/-- `EE.clean_domain` on `List Char`: the rewriting stages followed by
the two rejection guards of lines 158-164. -/
def cleanDomainL (l : List Char) : List Char :=
  let r7 := cleanDomainPre l
  if !(occursChar '.' r7) then []
  else if occursSub gmailL r7 && !(r7 == gmailComL) then []
  else r7

/-- `EE.clean_domain`.  The Python function returns `''` for rejected
domains; we return `""`. -/
def clean_domain (s : String) : String := String.mk (cleanDomainL s.data)

/-! ### `clean_username` (lines 167-181) -/

/-- Consume `[)]?` greedily. -/
def dropCloseOne (l : List Char) : List Char :=
  if l.head? == some ')' then l.drop 1 else l

/-- Match of `[(]?dot[)]?` at the head of `l`.  If the optional `(` is
present but not followed by `dot`, retrying without it fails too
(`(` is not `d`), hence the two-case shape. -/
def dot1MatchAt (l : List Char) : Option (List Char) :=
  if startsWithL ('(' :: dotL) l then some (dropCloseOne (l.drop 4))
  else if startsWithL dotL l then some (dropCloseOne (l.drop 3))
  else none

/-- Scanner for `re.sub("[(]?dot[)]?", '.', username)`. -/
def usubGo : Nat → List Char → List Char
  | 0, l => l
  | _ + 1, [] => []
  | f + 1, c :: cs =>
    match dot1MatchAt (c :: cs) with
    | some rest => '.' :: usubGo f rest
    | none => c :: usubGo f cs

def subDotOnce (l : List Char) : List Char := usubGo l.length l

/-- `EE.clean_username` on `List Char`; `none` models Python `None`. -/
def cleanUsernameL (l : List Char) : Option (List Char) :=
  let u := pyStrip l
  let u2 := subDotOnce u
  if u2.length < 4 then none else some u2

/-- `EE.clean_username`. -/
def clean_username (s : String) : Option String := (cleanUsernameL s.data).map String.mk

/-! Sanity checks against the Python behaviour. -/

example : clean_domain "d_ot.com" = "dot.com" := by decide

example : clean_domain "dot.com" = ".com" := by decide

example : clean_domain "gmail(dot)com" = "gmail.com" := by decide

example : clean_domain "gmail" = "gmail.com" := by decide

example : clean_domain "yahoo.com" = "yahoo.com" := by decide

example : clean_domain "gee mail com" = "gmail.com" := by decide

example : clean_domain "g mailgml.com" = "gmail.com" := by decide

example : clean_domain "gmail. in" = "" := by decide

example : clean_domain "hotmail co dot ukx" = "hotmail.co.ukx" := by decide

example : clean_username "  maryjane  " = some "maryjane" := by decide

example : clean_username " ab " = none := by decide

example : clean_username "x(dot)y" = none := by decide

example : clean_username "foo(dot)bar" = some "foo.bar" := by decide

/-! ### Regex AST

`RX` covers exactly the constructs appearing in the patterns built in
`EE.__init__` (lines 18-126): character classes, concatenation,
alternation (leftmost preference), greedy `*`/`?` (with `+` as
`a · a*`), lookahead `(?=...)`, fixed-width lookbehind `(?<=...)`,
word boundary `\b` and capturing groups. -/

inductive RX where
  | eps
  | cls (p : Char → Bool)
  | cat (a b : RX)
  | alt (a b : RX)
  | star (a : RX)
  | opt (a : RX)
  | look (a : RX)
  | lookb (w : Nat) (a : RX)
  | wordb
  | grp (n : Nat) (a : RX)

/-- Captured group spans: (group number, start, stop). -/
abbrev Caps := List (Nat × Nat × Nat)

abbrev MRes := Option (Nat × Caps)

/-- A matcher takes the reversed prefix before the current position, the
remaining suffix, the current position, the captures so far and a
success continuation. -/
abbrev Matcher :=
  List Char → List Char → Nat → Caps → (List Char → List Char → Nat → Caps → MRes) → MRes

def wtest : Option Char → Bool
  | none => false
  | some c => isWordChar c

/-- Greedy repetition with full backtracking: try one more iteration of
the body (refusing empty iterations, as Python's engine does for
repeats), else stop.  The fuel is instantiated with `rest.length + 1`;
since every iteration consumes at least one character it cannot run
out. -/
def iterStar (ma : Matcher) : Nat → Matcher
  | 0 => fun prev rest i cps k => k prev rest i cps
  | f + 1 => fun prev rest i cps k =>
    match ma prev rest i cps
        (fun p2 r2 j c2 => if j == i then none else iterStar ma f p2 r2 j c2 k) with
    | some r => some r
    | none => k prev rest i cps

/-- Backtracking matcher with Python `re` semantics.  Lookarounds are
atomic: after the sub-pattern succeeds once the engine never retries it
(none of the lookarounds in this grammar contain capturing groups). -/
def mrun : RX → Matcher
  | .eps => fun prev rest i cps k => k prev rest i cps
  | .cls p => fun prev rest i cps k =>
    match rest with
    | [] => none
    | c :: rs => if p c then k (c :: prev) rs (i + 1) cps else none
  | .cat a b => fun prev rest i cps k =>
    mrun a prev rest i cps (fun p2 r2 j c2 => mrun b p2 r2 j c2 k)
  | .alt a b => fun prev rest i cps k =>
    match mrun a prev rest i cps k with
    | some r => some r
    | none => mrun b prev rest i cps k
  | .star a => fun prev rest i cps k => iterStar (mrun a) (rest.length + 1) prev rest i cps k
  | .opt a => fun prev rest i cps k =>
    match mrun a prev rest i cps k with
    | some r => some r
    | none => k prev rest i cps
  | .look a => fun prev rest i cps k =>
    match mrun a prev rest i cps (fun _ _ j c2 => some (j, c2)) with
    | some (_, c2) => k prev rest i c2
    | none => none
  | .lookb w a => fun prev rest i cps k =>
    if w ≤ prev.length then
      let sub := (prev.take w).reverse
      match mrun a [] sub 0 []
          (fun _ r2 j c2 => if r2.isEmpty then some (j, c2) else none) with
      | some _ => k prev rest i cps
      | none => none
    else none
  | .wordb => fun prev rest i cps k =>
    if wtest prev.head? != wtest rest.head? then k prev rest i cps else none
  | .grp n a => fun prev rest i cps k =>
    mrun a prev rest i cps (fun p2 r2 j c2 => k p2 r2 j ((n, i, j) :: c2))

/-- Try to match `rx` at the current position (Python `re` tries this at
every position from left to right). -/
def rmatch (rx : RX) (prev rest : List Char) (i : Nat) : MRes :=
  mrun rx prev rest i [] (fun _ _ j cps => some (j, cps))

def capFind : Caps → Nat → Option (Nat × Nat)
  | [], _ => none
  | (m, a, b) :: rest, n => if m == n then some (a, b) else capFind rest n

/-- Content of group `n` (the most recent capture wins; an unmatched
group yields the empty string, as in `re.findall`). -/
def capSlice (s : List Char) (cps : Caps) (n : Nat) : List Char :=
  match capFind cps n with
  | some (a, b) => (s.drop a).take (b - a)
  | none => []

def adv : Nat → List Char → List Char → List Char × List Char
  | 0, p, r => (p, r)
  | _ + 1, p, [] => (p, [])
  | m + 1, p, c :: rs => adv m (c :: p) rs

/-- Scan loop of `re.findall` for a pattern with two capturing groups:
leftmost non-overlapping matches; after a match resume at its end
(after an empty match, at the next position). -/
def findGo (rx : RX) (s : List Char) : Nat → List Char → List Char → Nat → List (List Char × List Char)
  | 0, _, _, _ => []
  | f + 1, prev, rest, i =>
    match rmatch rx prev rest i with
    | some (j, cps) =>
      let pr := (capSlice s cps 1, capSlice s cps 2)
      if j > i then
        let pq := adv (j - i) prev rest
        pr :: findGo rx s f pq.1 pq.2 j
      else
        match rest with
        | [] => [pr]
        | c :: rs => pr :: findGo rx s f (c :: prev) rs (i + 1)
    | none =>
      match rest with
      | [] => []
      | c :: rs => findGo rx s f (c :: prev) rs (i + 1)

def findallPairs (rx : RX) (s : List Char) : List (List Char × List Char) :=
  findGo rx s (s.length + 1) [] s 0

/-! ### Convenience constructors for the grammar -/

def chr (c : Char) : RX := RX.cls (fun x => x == c)

def litRX (l : List Char) : RX := l.foldr (fun c r => RX.cat (chr c) r) RX.eps

def catList (l : List RX) : RX := l.foldr RX.cat RX.eps

def altList : List RX → RX
  | [] => RX.cls (fun _ => false)
  | [a] => a
  | a :: rest => RX.alt a (altList rest)

def plus (a : RX) : RX := RX.cat a (RX.star a)

def wsRX : RX := RX.cls isPySpace

def wRX : RX := RX.cls isWordChar

/-! ### The grammar built in `EE.__init__` (lines 18-126)

Each definition mirrors the Python attribute of the same name; the
original pattern string is quoted in the comment. -/

/-- `common_domains_regex = "(?:gmail|gee mail|g mail|gml|yahoo|hotmail)"`. -/
def common_domains_regex : RX := altList (common_domains.map litRX)

/-- `com_synonyms = [r"com\b", r"co\s*\.\s*\w\w\w?", r"co\s+dot\s+\w\w\w?"]`. -/
def com_synonyms : List RX :=
  [ RX.cat (litRX "com".data) RX.wordb
  , catList [litRX "co".data, RX.star wsRX, chr '.', RX.star wsRX, wRX, wRX, RX.opt wRX]
  , catList [litRX "co".data, plus wsRX, litRX "dot".data, plus wsRX, wRX, wRX, RX.opt wRX] ]

def com_synonyms_regex : RX := altList com_synonyms

/-- `spelled_out_domain_regex =
"(?:" + common_domains_regex + "(?:(?:dot\s+|\.+|\,+|\s+)" + com_synonyms_regex + "))"`. -/
def spelled_out_domain_regex : RX :=
  catList
    [ common_domains_regex
    , altList
        [ RX.cat (litRX "dot".data) (plus wsRX)
        , plus (chr '.')
        , plus (chr ',')
        , plus wsRX ]
    , com_synonyms_regex ]

/-- `(?:at|arroba)`. -/
def atOrArroba : RX := RX.alt (litRX "at".data) (litRX "arroba".data)

/-- `(?<=\w\w\w|\wat)`: both alternatives have width 3. -/
def lbWWWorWat : RX :=
  RX.lookb 3 (RX.alt (catList [wRX, wRX, wRX]) (catList [wRX, chr 'a', chr 't']))

/-- The eleven `at_regexes` of lines 49-61, in source order. -/
def at_regexes : List RX :=
  [ chr '@'
  , catList [plus (chr '('), chr '@', plus (chr ')')]
  , catList [plus (chr '['), chr '@', plus (chr ']')]
  , catList [plus (chr '('), atOrArroba, plus (chr ')')]
  , catList [plus (chr '['), atOrArroba, plus (chr ']')]
  , catList [plus (chr (Char.ofNat 123)), atOrArroba, plus (chr (Char.ofNat 125))]
  , catList [plus wsRX, atOrArroba, chr '@']
  , catList [chr '@', litRX "at".data, plus wsRX]
  , catList [litRX "at".data, plus wsRX, RX.look spelled_out_domain_regex]
  , catList [lbWWWorWat, plus wsRX, RX.look spelled_out_domain_regex]
  , catList [lbWWWorWat, chr '[', chr ']', RX.look (RX.opt spelled_out_domain_regex)] ]

def at_regex : RX := altList at_regexes

/-- `at_postfix_regex = "(?:,+\s*|\.+\s*)?"`. -/
def at_postfix_regex : RX :=
  RX.opt (RX.alt (RX.cat (plus (chr ',')) (RX.star wsRX))
                 (RX.cat (plus (chr '.')) (RX.star wsRX)))

/-- `full_at_regex = at_regex + at_postfix_regex + "\s*"`. -/
def full_at_regex : RX := catList [at_regex, at_postfix_regex, RX.star wsRX]

/-- `basic_dns_label_regex = r"[a-zA-Z0-9][a-zA-Z0-9\-]*[a-zA-Z0-9]"`. -/
def basic_dns_label_regex : RX :=
  catList
    [ RX.cls isAsciiAlnum
    , RX.star (RX.cls (fun c => isAsciiAlnum c || c == '-'))
    , RX.cls isAsciiAlnum ]

/-- `wrapped_basic_dns_label_regexes` (lines 80-84). -/
def wrapped_basic_dns_label_regexes : List RX :=
  [ basic_dns_label_regex
  , catList [plus (chr '('), basic_dns_label_regex, plus (chr ')')]
  , catList [plus (chr '['), basic_dns_label_regex, plus (chr ']')] ]

def dns_label_regex : RX := altList wrapped_basic_dns_label_regexes

/-- `dot_regex = "[(\[]*dot[)\]]*"` as a pattern (when used inside the
separator regexes rather than in `re.sub`). -/
def dot_regexRX : RX :=
  catList [RX.star (RX.cls isOpenBr), litRX "dot".data, RX.star (RX.cls isCloseBr)]

def dotOrWsC : RX := RX.cls (fun c => c == '.' || isPySpace c)

/-- `"\s*\.+\s*"` (line 90). -/
def dnsSep1 : RX := catList [RX.star wsRX, plus (chr '.'), RX.star wsRX]

/-- `"[\.\s]+" + dot_regex + "[\.\s]+"` (line 91). -/
def dnsSep2 : RX := catList [plus dotOrWsC, dot_regexRX, plus dotOrWsC]

/-- `"\(+(?:\.|" + dot_regex + ")+\)+"` (line 92). -/
def dnsSep3 : RX :=
  catList [plus (chr '('), plus (RX.alt (chr '.') dot_regexRX), plus (chr ')')]

/-- `"\[+\.+\]+"` (line 93). -/
def dnsSep4 : RX := catList [plus (chr '['), plus (chr '.'), plus (chr ']')]

/-- `"\{+\.+\}+"` (line 94). -/
def dnsSep5 : RX :=
  catList [plus (chr (Char.ofNat 123)), plus (chr '.'), plus (chr (Char.ofNat 125))]

/-- `"\s+(?=" + com_synonyms_regex + ")"` (line 95). -/
def dnsSep6 : RX := RX.cat (plus wsRX) (RX.look com_synonyms_regex)

/-- `dns_separator_regexes` (lines 89-96), in source order. -/
def dns_separator_regexes : List RX := [dnsSep1, dnsSep2, dnsSep3, dnsSep4, dnsSep5, dnsSep6]

/-- Line 97: `"(?:" + ",*" + "|".join(dns_separator_regexes) + ",*" + ")"`.
The `",*"` pieces are glued onto the FIRST and LAST alternative. -/
def dns_separator_regex : RX :=
  altList
    [ RX.cat (RX.star (chr ',')) dnsSep1
    , dnsSep2
    , dnsSep3
    , dnsSep4
    , dnsSep5
    , RX.cat dnsSep6 (RX.star (chr ',')) ]

/-- `dns_re = full_at_regex + "(" + dns_label_regex +
"(?:" + dns_separator_regex + dns_label_regex + ")*" + ")"` (line 99);
the capturing group is group 2 of the composed e-mail regex. -/
def dns_re : RX :=
  RX.cat full_at_regex
    (RX.grp 2 (RX.cat dns_label_regex
      (RX.star (RX.cat dns_separator_regex dns_label_regex))))

/-- Class `[a-z0-9]`. -/
def lowAlC : RX := RX.cls (fun c => isAsciiLower c || isAsciiDigit c)

/-- The punctuation class of `full_username_regex`:
`[-.!#$%&'*+/?^_`{|}~]` (apostrophe, backtick and braces written by
code point). -/
def strictPunctChars : List Char :=
  ['-', '.', '!', '#', '$', '%', '&', Char.ofNat 39, '*', '+', '/', '?', '^', '_',
   Char.ofNat 96, Char.ofNat 123, '|', Char.ofNat 125, '~']

/-- `full_username_regex = r"[a-z0-9]+(?:[-.!#$%&'*+/?^_`{|}~][a-z0-9]+)*"`. -/
def full_username_regex : RX :=
  RX.cat (plus lowAlC)
    (RX.star (RX.cat (RX.cls (fun c => strictPunctChars.contains c)) (plus lowAlC)))

/-- `basic_username_regex =
r"(?:[a-z0-9]+(?:(?:[-+_.]|[(]?dot[)]?)[a-z0-9]+)*\s*)"`. -/
def basic_username_regex : RX :=
  catList
    [ plus lowAlC
    , RX.star (RX.cat
        (RX.alt (RX.cls (fun c => c == '-' || c == '+' || c == '_' || c == '.'))
                (catList [RX.opt (chr '('), litRX "dot".data, RX.opt (chr ')')]))
        (plus lowAlC))
    , RX.star wsRX ]

/-- `strict_username_regex = r"(?:" + full_username_regex + r"(?=@))"`. -/
def strict_username_regex : RX := RX.cat full_username_regex (RX.look (chr '@'))

/-- `username_regex = r"(" + basic_username_regex + r"|" + strict_username_regex + r")"`:
group 1 of the composed regex. -/
def username_regex : RX := RX.grp 1 (RX.alt basic_username_regex strict_username_regex)

/-- `email_regex = username_regex + dns_re`. -/
def email_regex : RX := RX.cat username_regex dns_re

/-! ### Preprocessing in `extract_email` (lines 273-276) -/

def headIsSpace (l : List Char) : Bool :=
  match l.head? with
  | some c => isPySpace c
  | none => false

/-- Scanner for `re.sub(r"[*?]+", " ", line)`. -/
def starsGo : Nat → List Char → List Char
  | 0, l => l
  | _ + 1, [] => []
  | f + 1, c :: cs =>
    if c == '*' || c == '?' then
      ' ' :: starsGo f (cs.dropWhile (fun x => x == '*' || x == '?'))
    else c :: starsGo f cs

/-- Scanner for `re.sub(r"\\n", " ", line)`: the pattern matches the
two-character sequence backslash `n`. -/
def bsnGo : Nat → List Char → List Char
  | 0, l => l
  | _ + 1, [] => []
  | f + 1, c :: cs =>
    if startsWithL ['\\', 'n'] (c :: cs) then ' ' :: bsnGo f (cs.drop 1)
    else c :: bsnGo f cs

/-- Match of `\s+g\s+mail\s+` at the head of `l`.  Each `\s+` is a
greedy whitespace run; since the character required after each run is
never whitespace, the maximal run is the only candidate. -/
def gmsMatchAt (l : List Char) : Option (List Char) :=
  if headIsSpace l then
    let l1 := l.dropWhile isPySpace
    if startsWithL ['g'] l1 && headIsSpace (l1.drop 1) then
      let l3 := (l1.drop 1).dropWhile isPySpace
      if startsWithL "mail".data l3 && headIsSpace (l3.drop 4) then
        some ((l3.drop 4).dropWhile isPySpace)
      else none
    else none
  else none

/-- Scanner for `re.sub(r"\s+g\s+mail\s+", " gmail ", line)`. -/
def gmsGo : Nat → List Char → List Char
  | 0, l => l
  | _ + 1, [] => []
  | f + 1, c :: cs =>
    match gmsMatchAt (c :: cs) with
    | some rest => " gmail ".data ++ gmsGo f rest
    | none => c :: gmsGo f cs

/-- Lines 273-276:
`line = string.lower().replace('\n', ' ').replace('\r', '')` followed by
the three `re.sub` calls.  (Python 2 `str.lower()` lowercases ASCII
letters, as does `Char.toLower`.) -/
def preprocessL (l : List Char) : List Char :=
  let a := ((l.map Char.toLower).map (fun c => if c == '\n' then ' ' else c)).filter
    (fun c => !(c == '\r'))
  let b := starsGo a.length a
  let c := bsnGo b.length b
  gmsGo c.length c

/-- `matches = re.findall(self.email_regex, line)` (line 280), returning
(username capture, domain capture) pairs. -/
def matchesOfL (l : List Char) : List (List Char × List Char) :=
  findallPairs email_regex (preprocessL l)

/-- String-level view of the raw matches of `extract_email`. -/
def matchesOf (s : String) : List (String × String) :=
  (matchesOfL s.data).map (fun p => (String.mk p.1, String.mk p.2))

/-! ### `clean` (lines 183-193)

The Python code inserts into a `Set` and returns `list(set)`; we model
the set as an insertion-ordered duplicate-free list.  (Only membership
and cardinality of the result are relied on by the claims; the Python
iteration order of `Set` is unspecified anyway.) -/

def cleanGo : List (String × String) → List String → List String
  | [], acc => acc
  | (u, d) :: rest, acc =>
    let domain := clean_domain d
    match clean_username u with
    | some username =>
      if domain ≠ "" then
        let email := username ++ "@" ++ domain
        if email ∈ acc then cleanGo rest acc else cleanGo rest (acc ++ [email])
      else cleanGo rest acc
    | none => cleanGo rest acc

/-- `EE.clean`: normalize both parts of every raw match and collect the
successful `username@domain` strings without duplicates. -/
def clean (ms : List (String × String)) : List String := cleanGo ms []

/-! ### `normalize` (lines 211-240) -/

/-- A Python value stored in the result dicts: the code only ever stores
strings (`'True'`/`'False'`), never booleans; the `pbool` constructor
exists so that this is a statement about the code rather than about the
embedding's types. -/
inductive PyVal where
  | pstr (s : String)
  | pbool (b : Bool)
deriving DecidableEq

/-- A Python dict with string keys, as an insertion-ordered association
list with overwriting update. -/
abbrev PyDict := List (String × PyVal)

def dictSet : PyDict → String → PyVal → PyDict
  | [], k, v => [(k, v)]
  | (k', v') :: rest, k, v =>
    if k' == k then (k, v) :: rest else (k', v') :: dictSet rest k v

def pyStripS (s : String) : String := String.mk (pyStrip s.data)

/-- `tuc_string = username.strip() + "@" + domain.strip()` (line 225). -/
def tucString (t : String × String) : String := pyStripS t.1 ++ "@" ++ pyStripS t.2

/-- The comprehension of line 221:
`[username.strip() + "@" + domain.strip() for username, domain in tmp_unclean if domain and username]`. -/
def verbatims (uc : List (String × String)) : List String :=
  (uc.filter (fun t => !(t.2 == "") && !(t.1 == ""))).map tucString

/-- Lines 229-233: after cleaning both parts of a raw match, does
`username + "@" + domain` equal the canonical `co`?  (`if domain and
username` is domain nonempty and username not `None`.) -/
def cleansTo (co : String) (t : String × String) : Bool :=
  let domain := clean_domain t.2
  match clean_username t.1 with
  | some username => !(domain == "") && (username ++ "@" ++ domain == co)
  | none => false

/-- Lines 229-234: mark the record as obfuscated when some cleaned raw
match reproduces `co`. -/
def obfTryMark (co : String) (t : String × String) (em : PyDict) : PyDict :=
  if cleansTo co t then dictSet em "obfuscation" (PyVal.pstr "True") else em

/-- The `for tuc in tmp_unclean` loop of lines 223-234.  `uc` is the
live `unclean` list, mutated by `unclean.remove(tuc)`; `List.erase`
removes the first occurrence, exactly like `list.remove` (the element
is always present, having come from the snapshot of `unclean`). -/
def obfLoop (co : String) : List (String × String) → PyDict → List (String × String) → PyDict × List (String × String)
  | [], em, uc => (em, uc)
  | t :: rest, em, uc =>
    if tucString t == co then obfLoop co rest em (uc.erase t)
    else obfLoop co rest (obfTryMark co t em) uc

/-- Body of the `for co in clean` loop (lines 216-239) for one canonical
e-mail `co`: returns the record appended to `output` and the new state
of the `unclean` list. -/
def obfStep (co : String) (uc : List (String × String)) : PyDict × List (String × String) :=
  let em0 : PyDict := [("email", PyVal.pstr co)]
  if co ∈ verbatims uc then
    let r := obfLoop co uc em0 uc
    let em :=
      if r.1.lookup "obfuscation" = none then dictSet r.1 "obfuscation" (PyVal.pstr "False")
      else r.1
    (em, r.2)
  else (dictSet em0 "obfuscation" (PyVal.pstr "True"), uc)

/-- The obfuscation branch of `EE.normalize`. -/
def normalizeObf : List String → List (String × String) → List PyDict
  | [], _ => []
  | co :: rest, uc =>
    let r := obfStep co uc
    r.1 :: normalizeObf rest r.2

/-! ### Output format and `extract_email` (lines 130-134, 266-291) -/

def EE_OUTPUT_FORMAT_LIST : String := "list"

def EE_OUTPUT_FORMAT_OBFUSCATION : String := "obfuscation"

/-- `EE.set_output_format`: `raise Exception(...)` is modeled as
`Except.error` carrying the exception message. -/
def set_output_format (f : String) : Except String String :=
  if !(f == EE_OUTPUT_FORMAT_LIST || f == EE_OUTPUT_FORMAT_OBFUSCATION) then
    Except.error "output_format should be \"list\" or \"obfuscation\""
  else Except.ok f

/-- `EE.__init__(_output_format)`: builds the (fixed) grammar above —
which always succeeds — and validates the output format.  The engine
state that matters is the validated format string. -/
def EEinit (output_format : String) : Except String String := set_output_format output_format

/-- Result of `extract_email`: a list of strings (list mode), a list of
dicts (obfuscation mode), or a joined string (`return_as_string`). -/
inductive EEOut where
  | strs (l : List String)
  | recs (l : List PyDict)
  | jstr (s : String)
deriving DecidableEq

/-- `EE.normalize` (lines 211-240); named `normalizeEE` because Mathlib
already has a root-level `normalize`. -/
def normalizeEE (output_format : String) (clean_results : List String)
    (ms : List (String × String)) : EEOut :=
  if output_format == EE_OUTPUT_FORMAT_LIST then EEOut.strs clean_results
  else EEOut.recs (normalizeObf clean_results ms)

/-- `",".join(output)` (line 289).  Joining succeeds on a list of
strings (and on an empty list of anything) and raises `TypeError` on a
non-empty list of dicts — the only Python exception reachable from
`extract_email`. -/
def pyJoinComma : EEOut → Except String EEOut
  | EEOut.strs l => Except.ok (EEOut.jstr (String.intercalate "," l))
  | EEOut.recs [] => Except.ok (EEOut.jstr "")
  | EEOut.recs (_ :: _) =>
    Except.error "TypeError: sequence item 0: expected string, dict found"
  | EEOut.jstr s => Except.ok (EEOut.jstr s)

/-- `EE.extract_email(string, return_as_string)` for an engine whose
`output_format` is the first argument. -/
def extract_email (output_format : String) (s : String) (return_as_string : Bool) :
    Except String EEOut :=
  let ms := matchesOf s
  let clean_results := clean ms
  let output := normalizeEE output_format clean_results ms
  if return_as_string then pyJoinComma output else Except.ok output

deriving instance DecidableEq for Except

/-! ### Auxiliary definitions used by the theorems below -/

/-- No two adjacent dots (the shape guaranteed by `re.sub("\.+", ".", ...)`). -/
def noDD : List Char → Bool
  | [] => true
  | [_] => true
  | a :: b :: rest => !(a == '.' && b == '.') && noDD (b :: rest)

/-- The removal effect of `obfLoop` on the live `unclean` list, in
isolation. -/
def remGo (co : String) : List (String × String) → List (String × String) → List (String × String)
  | [], uc => uc
  | t :: rest, uc =>
    if tucString t == co then remGo co rest (uc.erase t) else remGo co rest uc

/-- The record-building effect of `obfLoop`, in isolation. -/
def emGo (co : String) : List (String × String) → PyDict → PyDict
  | [], em => em
  | t :: rest, em =>
    if tucString t == co then emGo co rest em else emGo co rest (obfTryMark co t em)

/-! ## Helper lemmas -/

theorem startsWithL_mem {p l : List Char} (h : startsWithL p l = true) : ∀ c ∈ p, c ∈ l := by
  intro c hc
  have hp : p <+: l := by simpa [startsWithL] using h
  exact hp.subset hc

theorem space_not_dns {c : Char} (h : isPySpace c = true) : isDnsChar c = false := by
  simp only [isPySpace, Bool.or_eq_true, beq_iff_eq] at h
  rcases h with ((((h | h) | h) | h) | h) | h <;> subst h <;> decide

theorem dns_not_space {c : Char} (h : isDnsChar c = true) : isPySpace c = false := by
  cases hs : isPySpace c
  · rfl
  · exact absurd h (by simp [space_not_dns hs])

theorem dns_not_open {c : Char} (h : isDnsChar c = true) : isOpenBr c = false := by
  cases ho : isOpenBr c
  · rfl
  · exfalso
    simp only [isOpenBr, Bool.or_eq_true, beq_iff_eq] at ho
    rcases ho with h1 | h1 <;> subst h1 <;> exact absurd h (by decide)

theorem dns_ne_space {c : Char} (h : isDnsChar c = true) : (c == ' ') = false := by
  cases hc : c == ' '
  · rfl
  · exfalso
    have : c = ' ' := by simpa using hc
    subst this
    exact absurd h (by decide)

theorem gsynGo_id : ∀ (f : Nat) (l : List Char), (∀ c ∈ l, (c == ' ') = false) → gsynGo f l = l := by
  intro f
  induction f with
  | zero => intro l _; rfl
  | succ f ih =>
    intro l h
    cases l with
    | nil => rfl
    | cons c cs =>
      cases hsw : startsWithL geeMailL (c :: cs) with
      | true => exact absurd (h ' ' (startsWithL_mem hsw ' ' (by decide))) (by decide)
      | false =>
        cases hsw2 : startsWithL gMailGmlL (c :: cs) with
        | true => exact absurd (h ' ' (startsWithL_mem hsw2 ' ' (by decide))) (by decide)
        | false =>
          simp only [gsynGo, hsw, hsw2, Bool.false_eq_true, if_false]
          exact congrArg (c :: ·) (ih cs (fun x hx => h x (List.mem_cons_of_mem c hx)))

theorem subGmailSyn_id {l : List Char} (h : ∀ c ∈ l, (c == ' ') = false) : subGmailSyn l = l :=
  gsynGo_id _ _ h

theorem wsubGo_id : ∀ (f : Nat) (l : List Char), (∀ c ∈ l, isPySpace c = false) → wsubGo f l = l := by
  intro f
  induction f with
  | zero => intro l _; rfl
  | succ f ih =>
    intro l h
    cases l with
    | nil => rfl
    | cons c cs =>
      simp only [wsubGo, h c (List.mem_cons_self c cs), Bool.false_eq_true, if_false]
      exact congrArg (c :: ·) (ih cs (fun x hx => h x (List.mem_cons_of_mem c hx)))

theorem subWs_id {l : List Char} (h : ∀ c ∈ l, isPySpace c = false) : subWs l = l :=
  wsubGo_id _ _ h

theorem occursSub_cons_false {p : List Char} {c : Char} {cs : List Char}
    (h : occursSub p (c :: cs) = false) :
    startsWithL p (c :: cs) = false ∧ occursSub p cs = false := by
  have := h
  simp only [occursSub, Bool.or_eq_false_iff] at this
  exact this

theorem dsubGo_id : ∀ (f : Nat) (l : List Char), (∀ c ∈ l, isDnsChar c = true) →
    occursSub dotL l = false → dsubGo f l = l := by
  intro f
  induction f with
  | zero => intro l _ _; rfl
  | succ f ih =>
    intro l h hocc
    cases l with
    | nil => rfl
    | cons c cs =>
      obtain ⟨hsw, hocc2⟩ := occursSub_cons_false hocc
      have hopen : isOpenBr c = false := dns_not_open (h c (List.mem_cons_self c cs))
      have hdw : (c :: cs).dropWhile isOpenBr = c :: cs :=
        List.dropWhile_cons_of_neg (by simp [hopen])
      have hmatch : dotMatchAt (c :: cs) = none := by
        simp only [dotMatchAt, hdw, hsw, Bool.false_eq_true, if_false]
      simp only [dsubGo, hmatch]
      exact congrArg (c :: ·)
        (ih cs (fun x hx => h x (List.mem_cons_of_mem c hx)) hocc2)

theorem subDotMarks_id {l : List Char} (h : ∀ c ∈ l, isDnsChar c = true)
    (hocc : occursSub dotL l = false) : subDotMarks l = l :=
  dsubGo_id _ _ h hocc

theorem noDD_tail {a : Char} {l : List Char} (h : noDD (a :: l) = true) : noDD l = true := by
  cases l with
  | nil => rfl
  | cons b bs =>
    simp only [noDD, Bool.and_eq_true] at h
    exact h.2

theorem noDD_cons {x : Char} {l : List Char} (h1 : noDD l = true)
    (h2 : ∀ b, l.head? = some b → (x == '.' && b == '.') = false) : noDD (x :: l) = true := by
  cases l with
  | nil => rfl
  | cons b bs =>
    simp only [noDD, Bool.and_eq_true]
    exact ⟨by simp [h2 b rfl], h1⟩

theorem csubGo_head : ∀ (f : Nat) (l : List Char), (csubGo f l).head? = l.head? := by
  intro f l
  cases f with
  | zero => rfl
  | succ f =>
    cases l with
    | nil => rfl
    | cons c cs =>
      cases hc : c == '.'
      · simp only [csubGo, hc, Bool.false_eq_true, if_false, List.head?_cons]
      · have : c = '.' := by simpa using hc
        subst this
        simp only [csubGo, hc, if_true, List.head?_cons]

theorem csubGo_noDD : ∀ (f : Nat) (l : List Char), l.length ≤ f → noDD (csubGo f l) = true := by
  intro f
  induction f with
  | zero =>
    intro l hl
    have : l = [] := List.length_eq_zero.mp (Nat.le_zero.mp hl)
    subst this
    rfl
  | succ f ih =>
    intro l hl
    cases l with
    | nil => rfl
    | cons c cs =>
      have hcs : cs.length ≤ f := Nat.le_of_succ_le_succ (by simpa using hl)
      cases hc : c == '.'
      · simp only [csubGo, hc, Bool.false_eq_true, if_false]
        refine noDD_cons (ih cs hcs) ?_
        intro b _
        simp [hc]
      · have hcd : c = '.' := by simpa using hc
        subst hcd
        simp only [csubGo, hc, if_true]
        have hrest : (cs.dropWhile (fun x => x == '.')).length ≤ f :=
          Nat.le_trans ((List.dropWhile_sublist _).length_le) hcs
        refine noDD_cons (ih _ hrest) ?_
        intro b hb
        rw [csubGo_head] at hb
        have hnb := List.head?_dropWhile_not (fun x => x == '.') cs
        rw [hb] at hnb
        simp only at hnb
        simp [hnb]

theorem csubGo_mem : ∀ (f : Nat) (l : List Char), ∀ x ∈ csubGo f l, x ∈ l ∨ x = '.' := by
  intro f
  induction f with
  | zero => intro l x hx; exact Or.inl hx
  | succ f ih =>
    intro l x hx
    cases l with
    | nil => exact Or.inl hx
    | cons c cs =>
      by_cases hc : (c == '.') = true
      · rw [show csubGo (f + 1) (c :: cs) =
            '.' :: csubGo f (cs.dropWhile (fun x => x == '.')) by simp [csubGo, hc]] at hx
        rcases List.mem_cons.mp hx with h | h
        · exact Or.inr h
        · rcases ih _ x h with h2 | h2
          · exact Or.inl (List.mem_cons_of_mem c ((List.dropWhile_sublist _).subset h2))
          · exact Or.inr h2
      · rw [show csubGo (f + 1) (c :: cs) = c :: csubGo f cs by
            simp [csubGo, Bool.eq_false_iff.mpr hc]] at hx
        rcases List.mem_cons.mp hx with h | h
        · exact Or.inl (h ▸ List.mem_cons_self c cs)
        · rcases ih cs x h with h2 | h2
          · exact Or.inl (List.mem_cons_of_mem c h2)
          · exact Or.inr h2

theorem csubGo_id : ∀ (f : Nat) (l : List Char), noDD l = true → csubGo f l = l := by
  intro f
  induction f with
  | zero => intro l _; rfl
  | succ f ih =>
    intro l h
    cases l with
    | nil => rfl
    | cons c cs =>
      by_cases hc : (c == '.') = true
      · have hcd : c = '.' := by simpa using hc
        have hdw : cs.dropWhile (fun x => x == '.') = cs := by
          cases cs with
          | nil => rfl
          | cons b bs =>
            have hb : (b == '.') = false := by
              subst hcd
              simp only [noDD, Bool.and_eq_true, Bool.not_eq_eq_eq_not, Bool.not_true,
                Bool.and_eq_false_iff] at h
              rcases h.1 with h1 | h1
              · exact absurd h1 (by simp)
              · exact h1
            exact List.dropWhile_cons_of_neg (by simp [hb])
        simp only [csubGo, hc, if_true, hdw]
        rw [ih cs (noDD_tail h)]
        subst hcd
        rfl
      · simp only [csubGo, Bool.eq_false_iff.mpr hc, Bool.false_eq_true, if_false]
        rw [ih cs (noDD_tail h)]

theorem dropWhile_eq_self_of {p : Char → Bool} {l : List Char}
    (h : ∀ c ∈ l, p c = false) : l.dropWhile p = l := by
  cases l with
  | nil => rfl
  | cons c cs =>
    exact List.dropWhile_cons_of_neg (by simp [h c (List.mem_cons_self c cs)])

theorem pyStrip_id {l : List Char} (h : ∀ c ∈ l, isPySpace c = false) : pyStrip l = l := by
  unfold pyStrip
  rw [dropWhile_eq_self_of h,
    dropWhile_eq_self_of (fun c hc => h c (List.mem_reverse.mp hc)),
    List.reverse_reverse]

theorem pyStrip_subset {l : List Char} : ∀ x ∈ pyStrip l, x ∈ l := by
  intro x hx
  unfold pyStrip at hx
  have h1 := List.mem_reverse.mp hx
  have h2 := (List.dropWhile_sublist isPySpace).subset h1
  have h3 := List.mem_reverse.mp h2
  exact (List.dropWhile_sublist isPySpace).subset h3

theorem mid_dns (l : List Char) : ∀ c ∈ cleanDomainMid l, isDnsChar c = true := by
  intro c hc
  unfold cleanDomainMid at hc
  have h5 := pyStrip_subset c hc
  rcases csubGo_mem _ _ c h5 with h4 | h4
  · exact List.of_mem_filter h4
  · subst h4; decide

theorem mid_noDD (l : List Char) : noDD (cleanDomainMid l) = true := by
  have hdns5 : ∀ c ∈ subDots ((subDotMarks (subWs (subGmailSyn l))).filter isDnsChar),
      isDnsChar c = true := by
    intro c hc
    rcases csubGo_mem _ _ c hc with h4 | h4
    · exact List.of_mem_filter h4
    · subst h4; decide
  have hs : cleanDomainMid l = subDots ((subDotMarks (subWs (subGmailSyn l))).filter isDnsChar) := by
    unfold cleanDomainMid
    exact pyStrip_id (fun c hc => dns_not_space (hdns5 c hc))
  rw [hs]
  exact csubGo_noDD _ _ (Nat.le_refl _)

theorem commonAnchored_dot {x : List Char} (h : occursChar '.' x = true) :
    commonAnchored x = false := by
  cases hca : commonAnchored x
  · rfl
  exfalso
  simp only [commonAnchored, List.any_eq_true] at hca
  obtain ⟨d, hd, hor⟩ := hca
  fin_cases hd <;> simp only [Bool.or_eq_true, beq_iff_eq] at hor <;>
    rcases hor with h1 | h1 <;> subst h1 <;> exact absurd h (by decide)

/-- The two rejection guards of `clean_domain` (lines 158-164): the
result is `''`, or it is the pre-cleaned string, contains a dot, and if
it contains `gmail` it is exactly `gmail.com`. -/
theorem cleanDomainL_shape (l : List Char) :
    cleanDomainL l = [] ∨
      (cleanDomainL l = cleanDomainPre l ∧ occursChar '.' (cleanDomainL l) = true ∧
        (occursSub gmailL (cleanDomainL l) = true → cleanDomainL l = gmailComL)) := by
  have hdef : cleanDomainL l =
      (if !(occursChar '.' (cleanDomainPre l)) then []
       else if occursSub gmailL (cleanDomainPre l) && !(cleanDomainPre l == gmailComL) then []
       else cleanDomainPre l) := rfl
  cases h1 : occursChar '.' (cleanDomainPre l)
  · left; rw [hdef]; simp [h1]
  · cases h2 : (occursSub gmailL (cleanDomainPre l) && !(cleanDomainPre l == gmailComL))
    · have he : cleanDomainL l = cleanDomainPre l := by rw [hdef]; simp [h1, h2]
      right
      rw [he]
      refine ⟨rfl, h1, ?_⟩
      intro hg
      rw [hg] at h2
      simpa using h2
    · left; rw [hdef]; simp [h1, h2]

/-- On a string of DNS characters with no adjacent dots and no `dot`
substring, every rewriting stage of `clean_domain` is the identity, and
a string containing a literal dot is never a bare provider name. -/
theorem cleanDomainPre_id {d : List Char} (hdns : ∀ c ∈ d, isDnsChar c = true)
    (hnd : noDD d = true) (hdot : occursSub dotL d = false)
    (hdotc : occursChar '.' d = true) : cleanDomainPre d = d := by
  have h1 : subGmailSyn d = d := subGmailSyn_id (fun c hc => dns_ne_space (hdns c hc))
  have h2 : subWs d = d := subWs_id (fun c hc => dns_not_space (hdns c hc))
  have h3 : subDotMarks d = d := subDotMarks_id hdns hdot
  have h4 : d.filter isDnsChar = d := List.filter_eq_self.mpr hdns
  have h5 : subDots d = d := csubGo_id _ _ hnd
  have h6 : pyStrip d = d := pyStrip_id (fun c hc => dns_not_space (hdns c hc))
  have hmid : cleanDomainMid d = d := by
    simp only [cleanDomainMid]
    rw [h1, h2, h3, h4, h5, h6]
  simp only [cleanDomainPre]
  rw [hmid, commonAnchored_dot hdotc]
  simp

/-- Core of the corrected idempotence claim: a nonempty `clean_domain`
output that does not contain the substring `dot` is a fixed point of
`clean_domain`. -/
theorem cleanDomainL_idem {l : List Char} (hne : cleanDomainL l ≠ [])
    (hdot : occursSub dotL (cleanDomainL l) = false) :
    cleanDomainL (cleanDomainL l) = cleanDomainL l := by
  rcases cleanDomainL_shape l with h | ⟨hpre, hdotc, hgm⟩
  · exact absurd h hne
  -- d is the pre-cleaned string
  cases hca : commonAnchored (cleanDomainMid l) with
  | false =>
    -- no `.com` was appended: d = cleanDomainMid l, which satisfies the
    -- invariants of the rewriting stages
    have hmid : cleanDomainPre l = cleanDomainMid l := by
      simp only [cleanDomainPre]
      rw [hca]
      simp
    rw [hpre, hmid] at hdot hdotc hgm ⊢
    have hdns := mid_dns l
    have hnd := mid_noDD l
    have hrw : cleanDomainPre (cleanDomainMid l) = cleanDomainMid l :=
      cleanDomainPre_id hdns hnd hdot hdotc
    have hdef : cleanDomainL (cleanDomainMid l) =
        (if !(occursChar '.' (cleanDomainPre (cleanDomainMid l))) then []
         else if occursSub gmailL (cleanDomainPre (cleanDomainMid l)) &&
             !(cleanDomainPre (cleanDomainMid l) == gmailComL) then []
         else cleanDomainPre (cleanDomainMid l)) := rfl
    rw [hdef, hrw, hdotc]
    cases hg : occursSub gmailL (cleanDomainMid l)
    · simp
    · have := hgm hg
      rw [this]
      simp
  | true =>
    -- `.com` was appended to a bare provider name; since the cleaned
    -- string has only DNS characters, the provider is one of the four
    -- space-free entries and the result is a concrete string
    have hpre2 : cleanDomainPre l = cleanDomainMid l ++ comSuffixL := by
      simp only [cleanDomainPre]
      rw [hca]
      simp
    have hmem := hca
    simp only [commonAnchored, List.any_eq_true, Bool.or_eq_true, beq_iff_eq] at hmem
    obtain ⟨dd, hdd, hor⟩ := hmem
    fin_cases hdd
    · rcases hor with heq | heq
      · rw [hpre, hpre2, heq]; decide
      · exact absurd (mid_dns l '\n' (by rw [heq]; simp)) (by decide)
    · rcases hor with heq | heq
      · exact absurd (mid_dns l ' ' (by rw [heq]; decide)) (by decide)
      · exact absurd (mid_dns l '\n' (by rw [heq]; simp)) (by decide)
    · rcases hor with heq | heq
      · exact absurd (mid_dns l ' ' (by rw [heq]; decide)) (by decide)
      · exact absurd (mid_dns l '\n' (by rw [heq]; simp)) (by decide)
    · rcases hor with heq | heq
      · rw [hpre, hpre2, heq]; decide
      · exact absurd (mid_dns l '\n' (by rw [heq]; simp)) (by decide)
    · rcases hor with heq | heq
      · rw [hpre, hpre2, heq]; decide
      · exact absurd (mid_dns l '\n' (by rw [heq]; simp)) (by decide)
    · rcases hor with heq | heq
      · rw [hpre, hpre2, heq]; decide
      · exact absurd (mid_dns l '\n' (by rw [heq]; simp)) (by decide)

theorem lookup_dictSet_self (em : PyDict) (k : String) (v : PyVal) :
    (dictSet em k v).lookup k = some v := by
  induction em with
  | nil => simp [dictSet]
  | cons p rest ih =>
    obtain ⟨k', v'⟩ := p
    cases h : k' == k with
    | true => simp [dictSet, h]
    | false =>
      have h2 : (k == k') = false :=
        beq_eq_false_iff_ne.mpr (Ne.symm (beq_eq_false_iff_ne.mp h))
      simp [dictSet, h, List.lookup, h2, ih]

theorem lookup_dictSet_ne (em : PyDict) (k k' : String) (v : PyVal)
    (hne : (k' == k) = false) : (dictSet em k v).lookup k' = em.lookup k' := by
  induction em with
  | nil => simp [dictSet, List.lookup, hne]
  | cons p rest ih =>
    obtain ⟨a, b⟩ := p
    cases h : a == k with
    | true =>
      have ha : a = k := beq_iff_eq.mp h
      subst ha
      simp [dictSet, List.lookup, hne]
    | false => simp [dictSet, h, List.lookup, ih]

theorem obfLoop_fst (co : String) :
    ∀ (tmp : List (String × String)) (em : PyDict) (uc : List (String × String)),
      (obfLoop co tmp em uc).1 = emGo co tmp em := by
  intro tmp
  induction tmp with
  | nil => intro em uc; rfl
  | cons t rest ih =>
    intro em uc
    cases ht : tucString t == co <;> simp [obfLoop, emGo, ht, ih]

theorem obfLoop_snd (co : String) :
    ∀ (tmp : List (String × String)) (em : PyDict) (uc : List (String × String)),
      (obfLoop co tmp em uc).2 = remGo co tmp uc := by
  intro tmp
  induction tmp with
  | nil => intro em uc; rfl
  | cons t rest ih =>
    intro em uc
    cases ht : tucString t == co <;> simp [obfLoop, remGo, ht, ih]

theorem remGo_filter_general (co : String) :
    ∀ (tmp pre : List (String × String)), (∀ t ∈ pre, (tucString t == co) = false) →
      remGo co tmp (pre ++ tmp) = pre ++ tmp.filter (fun t => !(tucString t == co)) := by
  intro tmp
  induction tmp with
  | nil => intro pre _; simp [remGo]
  | cons t rest ih =>
    intro pre h
    cases ht : tucString t == co with
    | true =>
      have hnp : t ∉ pre := by
        intro hmem
        rw [h t hmem] at ht
        exact Bool.noConfusion ht
      have her : (pre ++ t :: rest).erase t = pre ++ rest := by
        rw [List.erase_append_right _ hnp, List.erase_cons_head]
      simp only [remGo, ht, if_true, her]
      rw [ih pre h]
      simp [ht]
    | false =>
      simp only [remGo, ht, Bool.false_eq_true, if_false]
      have hstep : pre ++ t :: rest = (pre ++ [t]) ++ rest := by simp
      rw [hstep, ih (pre ++ [t]) ?side]
      · simp [ht]
      case side =>
        intro x hx
        rcases List.mem_append.mp hx with hx | hx
        · exact h x hx
        · rw [List.mem_singleton.mp hx]
          exact ht

theorem remGo_self (co : String) (uc : List (String × String)) :
    remGo co uc uc = uc.filter (fun t => !(tucString t == co)) := by
  simpa using remGo_filter_general co uc [] (by simp)

theorem emGo_lookup (co : String) :
    ∀ (tmp : List (String × String)) (em : PyDict),
      (emGo co tmp em).lookup "obfuscation" =
        (if tmp.any (fun t => !(tucString t == co) && cleansTo co t) then
          some (PyVal.pstr "True")
         else em.lookup "obfuscation") := by
  intro tmp
  induction tmp with
  | nil => intro em; simp [emGo]
  | cons t rest ih =>
    intro em
    cases ht : tucString t == co with
    | true =>
      simp only [emGo, ht, if_true, List.any_cons]
      rw [ih, Bool.not_true, Bool.false_and, Bool.false_or]
    | false =>
      cases hct : cleansTo co t with
      | true =>
        simp only [emGo, ht, Bool.false_eq_true, if_false, obfTryMark, hct, if_true,
          List.any_cons]
        rw [ih]
        cases hany : rest.any (fun t => !(tucString t == co) && cleansTo co t) <;>
          simp [ht, hct, hany, lookup_dictSet_self]
      | false =>
        simp only [emGo, ht, Bool.false_eq_true, if_false, obfTryMark, hct, List.any_cons]
        rw [ih, Bool.not_false, Bool.true_and, Bool.false_or]

theorem emGo_lookup_other (co : String) (k : String) (hk : (k == "obfuscation") = false) :
    ∀ (tmp : List (String × String)) (em : PyDict),
      (emGo co tmp em).lookup k = em.lookup k := by
  intro tmp
  induction tmp with
  | nil => intro em; rfl
  | cons t rest ih =>
    intro em
    cases ht : tucString t == co with
    | true => simp [emGo, ht, ih]
    | false =>
      cases hct : cleansTo co t with
      | true => simp [emGo, ht, obfTryMark, hct, ih, lookup_dictSet_ne _ _ _ _ hk]
      | false => simp [emGo, ht, obfTryMark, hct, ih]

/-- The record built for one canonical e-mail carries `obfuscation =
'False'` exactly when `co` occurs verbatim among the (current) raw
matches and no raw match other than a verbatim one cleans to `co`. -/
theorem obfStep_fst_lookup (co : String) (uc : List (String × String)) :
    ((obfStep co uc).1.lookup "obfuscation" = some (PyVal.pstr "False")) ↔
      (co ∈ verbatims uc ∧
        uc.any (fun t => !(tucString t == co) && cleansTo co t) = false) := by
  by_cases hv : co ∈ verbatims uc
  · have hem : List.lookup "obfuscation" (emGo co uc [("email", PyVal.pstr co)]) =
        (if uc.any (fun t => !(tucString t == co) && cleansTo co t) then
          some (PyVal.pstr "True") else none) := by
      rw [emGo_lookup]
      simp [List.lookup]
    simp only [obfStep, hv, if_true, obfLoop_fst, hem]
    cases hany : uc.any (fun t => !(tucString t == co) && cleansTo co t) <;>
      simp [hany, hem, lookup_dictSet_self, hv]
  · simp [obfStep, hv, lookup_dictSet_self]

/-- The raw matches consumed while classifying `co`: exactly those whose
stripped concatenation is `co` (when `co` occurs verbatim at all). -/
theorem obfStep_snd (co : String) (uc : List (String × String)) :
    (obfStep co uc).2 =
      (if co ∈ verbatims uc then uc.filter (fun t => !(tucString t == co)) else uc) := by
  by_cases hv : co ∈ verbatims uc
  · simp [obfStep, hv, obfLoop_snd, remGo_self]
  · simp [obfStep, hv]

theorem cleanGo_nodup : ∀ (ms : List (String × String)) (acc : List String),
    acc.Nodup → (cleanGo ms acc).Nodup := by
  intro ms
  induction ms with
  | nil => intro acc h; exact h
  | cons p rest ih =>
    intro acc h
    obtain ⟨u, d⟩ := p
    simp only [cleanGo]
    cases hcu : clean_username u with
    | none => exact ih acc h
    | some username =>
      dsimp only
      by_cases h1 : clean_domain d ≠ ""
      · rw [if_pos h1]
        by_cases h2 : username ++ "@" ++ clean_domain d ∈ acc
        · rw [if_pos h2]
          exact ih acc h
        · rw [if_neg h2]
          refine ih _ ?_
          rw [List.nodup_append]
          exact ⟨h, List.nodup_singleton _, by
            intro a ha hb
            rw [List.mem_singleton.mp hb] at ha
            exact h2 ha⟩
      · rw [if_neg h1]
        exact ih acc h

theorem obfStep_lookup_val (co : String) (uc : List (String × String)) :
    (obfStep co uc).1.lookup "obfuscation" = some (PyVal.pstr "True") ∨
      (obfStep co uc).1.lookup "obfuscation" = some (PyVal.pstr "False") := by
  by_cases hv : co ∈ verbatims uc
  · have hem : List.lookup "obfuscation" (emGo co uc [("email", PyVal.pstr co)]) =
        (if uc.any (fun t => !(tucString t == co) && cleansTo co t) then
          some (PyVal.pstr "True") else none) := by
      rw [emGo_lookup]
      simp [List.lookup]
    simp only [obfStep, hv, if_true, obfLoop_fst, hem]
    cases hany : uc.any (fun t => !(tucString t == co) && cleansTo co t) <;>
      simp [hany, hem, lookup_dictSet_self]
  · simp [obfStep, hv, lookup_dictSet_self]

theorem obfStep_no_obfuscated (co : String) (uc : List (String × String)) :
    (obfStep co uc).1.lookup "obfuscated" = none := by
  have hk : (("obfuscated" : String) == "obfuscation") = false := by decide
  have h0 : List.lookup "obfuscated" ([("email", PyVal.pstr co)] : PyDict) = none := by
    simp [List.lookup]
  by_cases hv : co ∈ verbatims uc
  · simp only [obfStep, hv, if_true, obfLoop_fst]
    have hg : List.lookup "obfuscated" (emGo co uc [("email", PyVal.pstr co)]) = none := by
      rw [emGo_lookup_other co "obfuscated" hk]
      exact h0
    cases hcond : List.lookup "obfuscation" (emGo co uc [("email", PyVal.pstr co)]) with
    | none => simp [hcond, lookup_dictSet_ne _ _ _ _ hk, hg]
    | some v => simp [hcond, hg]
  · simp [obfStep, hv, lookup_dictSet_ne _ _ _ _ hk, h0]

theorem normalizeObf_recs : ∀ (cl : List String) (uc : List (String × String)) (rec : PyDict),
    rec ∈ normalizeObf cl uc →
      (rec.lookup "obfuscation" = some (PyVal.pstr "True") ∨
        rec.lookup "obfuscation" = some (PyVal.pstr "False")) ∧
      rec.lookup "obfuscated" = none := by
  intro cl
  induction cl with
  | nil => intro uc rec h; simp [normalizeObf] at h
  | cons co rest ih =>
    intro uc rec h
    simp only [normalizeObf] at h
    rcases List.mem_cons.mp h with h1 | h1
    · subst h1
      exact ⟨obfStep_lookup_val co uc, obfStep_no_obfuscated co uc⟩
    · exact ih _ rec h1

theorem normalizeObf_eq_nil_iff (cl : List String) (uc : List (String × String)) :
    normalizeObf cl uc = [] ↔ cl = [] := by
  cases cl <;> simp [normalizeObf]

/-! ## Claim theorems -/

set_option maxRecDepth 1000000

set_option maxHeartbeats 2000000

/-- C1: for every raw domain fragment, `clean_domain` returns either a
rejection (the empty string) or a string containing at least one dot;
and if the result contains the substring `gmail` anywhere, it is
exactly `gmail.com` — `clean_domain` never returns any other
gmail-containing string. -/
theorem claim_C1_clean_domain_invariant (s : String) :
    clean_domain s = "" ∨
      (occursChar '.' (clean_domain s).data = true ∧
        (occursSub gmailL (clean_domain s).data = true → clean_domain s = "gmail.com")) := by
  rcases cleanDomainL_shape s.data with h | ⟨_, hdot, hgm⟩
  · left
    show String.mk (cleanDomainL s.data) = ""
    rw [h]
  · right
    refine ⟨hdot, ?_⟩
    intro hg
    show String.mk (cleanDomainL s.data) = "gmail.com"
    rw [hgm hg]
    rfl

/-- C1 witness: the theorem applied at the concrete fragment `gmail`,
whose cleaned form contains `gmail`, forcing the result `gmail.com`. -/
theorem claim_C1_witness : clean_domain "gmail" = "gmail.com" :=
  ((claim_C1_clean_domain_invariant "gmail").resolve_left (by decide)).2 (by decide)

/-- C2 counterexample: `dot.com` is a canonical output of
`clean_domain` (it is `clean_domain "d_ot.com"`, nonempty), yet
`clean_domain "dot.com" = ".com" ≠ "dot.com"`: the spelled-out-dot
substitution fires a second time on the literal letters `dot`, so
`clean_domain` is not idempotent on its canonical outputs. -/
theorem claim_C2_counterexample :
    clean_domain "d_ot.com" = "dot.com" ∧ clean_domain "dot.com" = ".com" ∧
      clean_domain (clean_domain "d_ot.com") ≠ clean_domain "d_ot.com" := by decide

/-- C2 (amended): `clean_domain` is idempotent on every nonempty
canonical output that does not contain the letter sequence `dot`. -/
theorem claim_C2_idempotent_no_dot (s : String) (h1 : clean_domain s ≠ "")
    (h2 : occursSub dotL (clean_domain s).data = false) :
    clean_domain (clean_domain s) = clean_domain s := by
  have hne : cleanDomainL s.data ≠ [] := by
    intro h
    apply h1
    show String.mk (cleanDomainL s.data) = ""
    rw [h]
  exact congrArg String.mk (cleanDomainL_idem hne h2)

/-- C2 witness: the amended theorem applied at `yahoo.com`. -/
theorem claim_C2_witness :
    clean_domain "yahoo.com" ≠ "" ∧
      occursSub dotL (clean_domain "yahoo.com").data = false ∧
      clean_domain (clean_domain "yahoo.com") = clean_domain "yahoo.com" :=
  ⟨by decide, by decide, claim_C2_idempotent_no_dot "yahoo.com" (by decide) (by decide)⟩

/-- C3 counterexample: in list mode, `extract_email` on
`"SweetAbby90 at gmail"` does NOT return `["sweetabby90@gmail.com"]`. -/
theorem claim_C3_counterexample :
    extract_email "list" "SweetAbby90 at gmail" false ≠
      Except.ok (EEOut.strs ["sweetabby90@gmail.com"]) := by decide

/-- C3 (amended): in list mode, `extract_email "SweetAbby90 at gmail"`
returns the empty list: the bare word `at` followed by a provider name
alone is not an at-marker, because the lookahead of the `at`-marker
alternatives requires a spelled-out domain followed by a TLD synonym
(`com`, `co . xx`, `co dot xx`), which `gmail` alone does not satisfy.
(The source itself keeps this very input commented out at line 329 with
the note "this should be a separate pattern".) -/
theorem claim_C3_sweetabby_empty :
    extract_email "list" "SweetAbby90 at gmail" false = Except.ok (EEOut.strs []) := by decide

/-- C4: in list mode, `extract_email` on
`"marycomeaux62(@)gmail(dot)com"` returns exactly
`["marycomeaux62@gmail.com"]`. -/
theorem claim_C4_marycomeaux :
    extract_email "list" "marycomeaux62(@)gmail(dot)com" false =
      Except.ok (EEOut.strs ["marycomeaux62@gmail.com"]) := by decide

/-- C5 counterexample: on
`"sebasccelis@hotmail.com sebasccelis@hotmail(dot)com"` the first raw
match's stripped concatenation equals the canonical string verbatim,
yet the single record is marked `obfuscation = 'True'`: the cleaning
loop also runs over the second (obfuscated) raw match, which cleans to
the same canonical and flips the mark.  This refutes the claimed
"exactly when some raw match's stripped concatenation equals the
canonical verbatim". -/
theorem claim_C5_counterexample :
    matchesOf "sebasccelis@hotmail.com sebasccelis@hotmail(dot)com" =
      [("sebasccelis", "hotmail.com"), ("sebasccelis", "hotmail(dot)com")] ∧
    tucString ("sebasccelis", "hotmail.com") = "sebasccelis@hotmail.com" ∧
    extract_email "obfuscation" "sebasccelis@hotmail.com sebasccelis@hotmail(dot)com" false =
      Except.ok (EEOut.recs
        [[("email", PyVal.pstr "sebasccelis@hotmail.com"),
          ("obfuscation", PyVal.pstr "True")]]) := by decide

/-- C5 (amended): in obfuscation-annotated mode, a canonical e-mail is
marked not-obfuscated (`'False'`) exactly when (a) some remaining raw
match's stripped concatenation `rawUsername@rawDomain` equals the
canonical verbatim AND (b) no remaining raw match with a different
stripped concatenation normalizes to that canonical; when the verbatim
test succeeds, every raw match whose stripped concatenation equals the
canonical is consumed (removed from the pool seen by later canonical
e-mails).  In particular `extract_email` on
`"HOTMAIL:  sebasccelis@hotmail.com"` yields one record for
`sebasccelis@hotmail.com` marked not-obfuscated. -/
theorem claim_C5_obfuscation_classification :
    (∀ (co : String) (uc : List (String × String)),
      ((obfStep co uc).1.lookup "obfuscation" = some (PyVal.pstr "False") ↔
        (co ∈ verbatims uc ∧
          uc.any (fun t => !(tucString t == co) && cleansTo co t) = false)) ∧
      (obfStep co uc).2 =
        (if co ∈ verbatims uc then uc.filter (fun t => !(tucString t == co)) else uc)) ∧
    extract_email "obfuscation" "HOTMAIL:  sebasccelis@hotmail.com" false =
      Except.ok (EEOut.recs
        [[("email", PyVal.pstr "sebasccelis@hotmail.com"),
          ("obfuscation", PyVal.pstr "False")]]) := by
  refine ⟨fun co uc => ⟨obfStep_fst_lookup co uc, obfStep_snd co uc⟩, ?_⟩
  decide

/-- C5 witness: the characterization applied at a concrete canonical
e-mail and raw-match pool, with both conditions discharged by
computation. -/
theorem claim_C5_witness :
    (obfStep "sebasccelis@hotmail.com" [("sebasccelis", "hotmail.com")]).1.lookup "obfuscation" =
      some (PyVal.pstr "False") :=
  (claim_C5_obfuscation_classification.1 "sebasccelis@hotmail.com"
    [("sebasccelis", "hotmail.com")]).1.mpr (by decide)

/-- C6: engine construction fails (with the configuration-error
message) when and only when the output mode is outside
`{"list", "obfuscation"}`; with either valid mode (and the fixed
default vocabulary, whose grammar is the total construction above)
construction succeeds. -/
theorem claim_C6_output_format (f : String) :
    ((∃ v, EEinit f = Except.ok v) ↔ (f = "list" ∨ f = "obfuscation")) ∧
    ((EEinit f = Except.error "output_format should be \"list\" or \"obfuscation\"") ↔
      ¬(f = "list" ∨ f = "obfuscation")) := by
  by_cases hl : f = "list"
  · subst hl; simp [EEinit, set_output_format, EE_OUTPUT_FORMAT_LIST, EE_OUTPUT_FORMAT_OBFUSCATION]
  · by_cases ho : f = "obfuscation"
    · subst ho
      simp [EEinit, set_output_format, EE_OUTPUT_FORMAT_LIST, EE_OUTPUT_FORMAT_OBFUSCATION]
    · have h1 : (f == "list") = false := beq_eq_false_iff_ne.mpr hl
      have h2 : (f == "obfuscation") = false := beq_eq_false_iff_ne.mpr ho
      simp [EEinit, set_output_format, EE_OUTPUT_FORMAT_LIST, EE_OUTPUT_FORMAT_OBFUSCATION,
        h1, h2, hl, ho]

/-- C6 witness: construction succeeds for `list` and fails with the
configuration error for `bogus`. -/
theorem claim_C6_witness :
    (∃ v, EEinit "list" = Except.ok v) ∧
      EEinit "bogus" = Except.error "output_format should be \"list\" or \"obfuscation\"" :=
  ⟨(claim_C6_output_format "list").1.mpr (Or.inl rfl),
   (claim_C6_output_format "bogus").2.mpr (by decide)⟩

/-- C7 counterexample: with output mode `obfuscation` and
`return_as_string = True`, an input containing an extractable e-mail
makes `extract_email` raise: `",".join(output)` is applied to a
non-empty list of dicts (Python `TypeError`).  This refutes "for every
configured output mode and both values of the return-as-string flag,
extract_email returns a result without raising". -/
theorem claim_C7_counterexample :
    extract_email "obfuscation" "sebasccelis@hotmail.com" true =
      Except.error "TypeError: sequence item 0: expected string, dict found" := by decide

/-- C7 (amended): `extract_email` returns without error for every input
in list mode (both flag values) and in obfuscation mode with the flag
off; in obfuscation mode with the flag on it errors exactly when the
result is non-empty (the join of dicts); and when nothing can be
extracted the result is empty — the empty list, the empty record list,
or the empty joined string — never an error. -/
theorem claim_C7_no_error_amended (s : String) (b : Bool) :
    (∃ v, extract_email "list" s b = Except.ok v) ∧
    (∃ v, extract_email "obfuscation" s false = Except.ok v) ∧
    ((∃ e, extract_email "obfuscation" s true = Except.error e) ↔
      clean (matchesOf s) ≠ []) ∧
    (matchesOf s = [] →
      extract_email "list" s false = Except.ok (EEOut.strs []) ∧
      extract_email "obfuscation" s false = Except.ok (EEOut.recs []) ∧
      extract_email "obfuscation" s true = Except.ok (EEOut.jstr "")) := by
  have hobf0 : extract_email "obfuscation" s false =
      Except.ok (EEOut.recs (normalizeObf (clean (matchesOf s)) (matchesOf s))) := rfl
  have hobf1 : extract_email "obfuscation" s true =
      pyJoinComma (EEOut.recs (normalizeObf (clean (matchesOf s)) (matchesOf s))) := rfl
  refine ⟨?_, ⟨_, hobf0⟩, ?_, ?_⟩
  · cases b
    · exact ⟨_, rfl⟩
    · exact ⟨_, rfl⟩
  · rw [hobf1]
    cases hnl : normalizeObf (clean (matchesOf s)) (matchesOf s) with
    | nil =>
      have hcl : clean (matchesOf s) = [] := (normalizeObf_eq_nil_iff _ _).mp hnl
      simp [pyJoinComma, hcl]
    | cons r rs =>
      have hcl : clean (matchesOf s) ≠ [] := by
        intro h
        rw [h] at hnl
        simp [normalizeObf] at hnl
      simp [pyJoinComma, hcl]
  · intro hm
    have hcl : clean (matchesOf s) = [] := by rw [show clean (matchesOf s) = cleanGo (matchesOf s) [] from rfl, hm]; rfl
    refine ⟨?_, ?_, ?_⟩
    · have h0 : extract_email "list" s false = Except.ok (EEOut.strs (clean (matchesOf s))) := rfl
      rw [h0, hcl]
    · rw [hobf0, hcl]
      rfl
    · rw [hobf1, hcl]
      rfl

/-- C7 witness: the amended theorem applied at `"hello"` (which has no
extractable e-mail) with the flag on, deriving the empty joined-string
result. -/
theorem claim_C7_witness :
    (∃ v, extract_email "list" "hello" true = Except.ok v) ∧
      extract_email "obfuscation" "hello" true = Except.ok (EEOut.jstr "") :=
  ⟨(claim_C7_no_error_amended "hello" true).1,
   ((claim_C7_no_error_amended "hello" true).2.2.2 (by decide)).2.2⟩

/-- C8: `clean_username` trims the raw fragment, replaces spelled-out
dot markers (`[(]?dot[)]?`) with literal dots, and rejects exactly when
the resulting string has length < 4; hence every accepted username has
length ≥ 4. -/
theorem claim_C8_clean_username (s : String) :
    (clean_username s = none ↔ (subDotOnce (pyStrip s.data)).length < 4) ∧
    (∀ u, clean_username s = some u →
      u.data = subDotOnce (pyStrip s.data) ∧ 4 ≤ u.data.length) := by
  simp only [clean_username, cleanUsernameL]
  by_cases h : (subDotOnce (pyStrip s.data)).length < 4
  · rw [if_pos h]
    constructor
    · simp [h]
    · intro u hu
      exact absurd hu (by simp)
  · rw [if_neg h]
    constructor
    · simp [h]
    · intro u hu
      have hu2 : u = String.mk (subDotOnce (pyStrip s.data)) := by
        simpa using hu.symm
      subst hu2
      exact ⟨rfl, Nat.le_of_not_lt h⟩

/-- C8 witness: the theorem applied at `"  maryjane  "`, whose accepted
username is `maryjane` of length 8. -/
theorem claim_C8_witness :
    ("maryjane" : String).data = subDotOnce (pyStrip ("  maryjane  " : String).data) ∧
      4 ≤ ("maryjane" : String).data.length :=
  (claim_C8_clean_username "  maryjane  ").2 "maryjane" (by decide)

/-- C9: in list mode the result of `extract_email` is the
duplicate-free collection built by `clean`: raw matches normalizing to
the same canonical string contribute a single entry. -/
theorem claim_C9_dedup (s : String) :
    extract_email "list" s false = Except.ok (EEOut.strs (clean (matchesOf s))) ∧
      (clean (matchesOf s)).Nodup :=
  ⟨rfl, cleanGo_nodup _ [] List.nodup_nil⟩

/-- C10: in obfuscation-annotated mode every record returned by
`extract_email` carries its classification under the key named
`obfuscation` (and no key `obfuscated`), and the value is one of the
two strings `'True'`/`'False'` — a `PyVal.pstr`, never a boolean. -/
theorem claim_C10_obfuscation_key (s : String) (l : List PyDict)
    (hl : extract_email "obfuscation" s false = Except.ok (EEOut.recs l)) :
    ∀ rec ∈ l,
      (rec.lookup "obfuscation" = some (PyVal.pstr "True") ∨
        rec.lookup "obfuscation" = some (PyVal.pstr "False")) ∧
      rec.lookup "obfuscated" = none := by
  have h0 : extract_email "obfuscation" s false =
      Except.ok (EEOut.recs (normalizeObf (clean (matchesOf s)) (matchesOf s))) := rfl
  rw [h0] at hl
  have hleq : l = normalizeObf (clean (matchesOf s)) (matchesOf s) := by
    injection hl with h1
    injection h1 with h2
    exact h2.symm
  subst hleq
  intro rec hrec
  exact normalizeObf_recs _ _ rec hrec

/-- C10 witness: the theorem applied to the concrete output of
`extract_email` on `"HOTMAIL:  sebasccelis@hotmail.com"`. -/
theorem claim_C10_witness :
    (List.lookup "obfuscation"
        [("email", PyVal.pstr "sebasccelis@hotmail.com"),
         ("obfuscation", PyVal.pstr "False")] = some (PyVal.pstr "True") ∨
      List.lookup "obfuscation"
        [("email", PyVal.pstr "sebasccelis@hotmail.com"),
         ("obfuscation", PyVal.pstr "False")] = some (PyVal.pstr "False")) ∧
      List.lookup "obfuscated"
        [("email", PyVal.pstr "sebasccelis@hotmail.com"),
         ("obfuscation", PyVal.pstr "False")] = none :=
  claim_C10_obfuscation_key "HOTMAIL:  sebasccelis@hotmail.com"
    [[("email", PyVal.pstr "sebasccelis@hotmail.com"),
      ("obfuscation", PyVal.pstr "False")]]
    (by decide) _ (by decide)
